import Mathlib

/-!
Verification development for the concurrent task queue declared in
src/src/taskqueue.h (repository codeterrace/distributed-nbody).

Only the header is present in the repository sources, so the bodies of the
operations are modelled from the specification (spec.md); each such
definition carries a doc comment starting with `Modelled from the spec:`.

The lock discipline of the specification (every mutation of the FIFO and of
`num_running` happens while holding the single queue-wide lock) makes each
operation an atomic transition on the queue state, so the concurrent system
is embedded as a sequential trace of atomic events: a pure step function on
the state `taskqueue`, plus ghost bookkeeping (lists of pushed and popped
tasks, counters of completed and discarded tasks) used to state the FIFO and
conservation invariants.  The blocking operations `wait_for_work` and
`wait_for_complete` are embedded as loops over the list of queue states
observed at successive wakeups of the condition variable: between two
observations other threads may have changed the queue arbitrarily, and an
exhausted observation list means the call is still blocked.
-/

/-- A task, from struct task (src/src/taskqueue.h lines 29-33): a function
pointer, an argument pointer and the byte size of the argument buffer.
Function pointers and argument pointers are modelled as abstract numeric
identifiers. -/
structure task where
  func : Nat
  arg : Nat
  arg_size : Nat
  deriving DecidableEq, Repr

/-- A task queue, from struct taskqueue (src/src/taskqueue.h lines 69-77):
the FIFO container of pending tasks and the count of currently running
tasks.  The mutex and condition variable have no state of their own in the
embedding: the lock serialises the transitions and the condition variable is
modelled by the wakeup-observation lists of the blocking operations. -/
structure taskqueue where
  queue : List task
  num_running : Nat
  deriving DecidableEq, Repr

/-- Modelled from the spec: the body of taskqueue_init is not under src/.
Per section 4.2 of the spec, init produces an empty container with the lock
and condition variable ready; the resulting abstract state is the empty FIFO
with no running task. -/
def taskqueue_init : taskqueue :=
  { queue := [], num_running := 0 }

/-- Modelled from the spec: the body of taskqueue_count is not under src/.
Per the spec it returns the current FIFO length. -/
def taskqueue_count (q : taskqueue) : Nat :=
  q.queue.length

/-- Modelled from the spec: the body of taskqueue_push is not under src/.
Per the spec it appends one task to the tail of the FIFO and returns 0, or
fails (the underlying container cannot grow, e.g. allocation failure) with a
non-zero result, in which case the task is not stored.  The allocation
outcome of the underlying container is an explicit parameter `alloc_ok`. -/
def taskqueue_push (q : taskqueue) (t : task) (alloc_ok : Bool) : Nat × taskqueue :=
  if alloc_ok then (0, { q with queue := q.queue ++ [t] }) else (1, q)

/-- Modelled from the spec: the body of taskqueue_push_n is not under src/.
Per the spec and the header (src/src/taskqueue.h lines 107-116) it appends n
identical copies of the task as a single locked batch, or fails with a
non-zero result leaving the queue unchanged. -/
def taskqueue_push_n (q : taskqueue) (t : task) (n : Nat) (alloc_ok : Bool) :
    Nat × taskqueue :=
  if alloc_ok then (0, { q with queue := q.queue ++ List.replicate n t }) else (1, q)

/-- Modelled from the spec: the body of taskqueue_pop is not under src/.
Per the spec, pop is a pure non-blocking attempt: if the FIFO is non-empty
it removes the front task into the output slot and returns 0; if empty it
returns a distinct non-zero "empty" result and leaves the state unchanged.
The spec further states that wait_for_work's immediate path is "same as
pop" and that the popped-but-not-completed task counts in num_running
(section 3 invariant), so the successful locked pop transition also
increments num_running. -/
def taskqueue_pop (q : taskqueue) : Nat × taskqueue × Option task :=
  match q.queue with
  | [] => (1, q, none)
  | t :: rest => (0, { queue := rest, num_running := q.num_running + 1 }, some t)

/-- Modelled from the spec: the body of taskqueue_task_complete is not under
src/.  Per the spec it decrements num_running (and signals the condition
variable).  Calling it without a matching pop is documented misuse
(undefined behavior, spec section 7), modelled as `none`. -/
def taskqueue_task_complete (q : taskqueue) : Option taskqueue :=
  match q.num_running with
  | 0 => none
  | n + 1 => some { q with num_running := n }

/-- One locked attempt of taskqueue_wait_for_work: the re-check performed on
entry and after every wakeup.  It succeeds exactly when taskqueue_pop
succeeds, returning the popped task together with the post-transition
state. -/
def taskqueue_wait_for_work_try (q : taskqueue) : Option (task × taskqueue) :=
  match taskqueue_pop q with
  | (_, q2, some t) => some (t, q2)
  | (_, _, none) => none

/-- Modelled from the spec: the body of taskqueue_wait_for_work is not under
src/.  Per the spec it pops immediately when a task is pending, and
otherwise blocks on the condition variable and re-checks after every wakeup.
The argument is the list of queue states observed under the lock at entry
and at each successive wakeup (other threads may change the queue between
observations, and a wakeup may be spurious); `none` means every observation
found the queue empty and the call is still blocked. -/
def taskqueue_wait_for_work (ws : List taskqueue) : Option (task × taskqueue) :=
  match ws with
  | [] => none
  | q :: rest =>
    match taskqueue_wait_for_work_try q with
    | some r => some r
    | none => taskqueue_wait_for_work rest

/-- The quiescence condition re-checked by taskqueue_wait_for_complete:
no task running and no task pending. -/
def taskqueue_quiescent (q : taskqueue) : Bool :=
  q.num_running == 0 && taskqueue_count q == 0

/-- Modelled from the spec: the body of taskqueue_wait_for_complete is not
under src/.  Per the spec it blocks until num_running == 0 and
queue_length == 0 hold simultaneously, using the same wait/re-check/wake
pattern as wait_for_work.  The argument is the list of queue states observed
under the lock at entry and at each wakeup; the result is the quiescent
state observed at the return point, or `none` if every observation was
non-quiescent and the call is still blocked. -/
def taskqueue_wait_for_complete (ws : List taskqueue) : Option taskqueue :=
  match ws with
  | [] => none
  | q :: rest =>
    if taskqueue_quiescent q then some q else taskqueue_wait_for_complete rest

/-- Ghost bookkeeping carried alongside the queue state in the trace
semantics: the tasks accepted by successful pushes in total enqueue order,
the tasks removed by successful pops in removal order, the number of
completion signals, and the number of queued tasks discarded (destroyed
without running) at teardown. -/
structure tq_ghost where
  pushed : List task
  popped : List task
  completed : Nat
  discarded : Nat
  deriving DecidableEq, Repr

/-- The initial ghost state: nothing pushed, popped, completed or
discarded. -/
def tq_ghost_init : tq_ghost :=
  { pushed := [], popped := [], completed := 0, discarded := 0 }

/-- An atomic locked transition of the task queue, as observed by the trace
semantics: a push with its allocation outcome, a batch push, a pop attempt
(taskqueue_pop, or the successful re-check inside taskqueue_wait_for_work,
which is the same locked transition), a completion signal, or the teardown
discard of one queued task that never ran. -/
inductive tq_event where
  | push (t : task) (ok : Bool)
  | push_n (t : task) (n : Nat) (ok : Bool)
  | pop
  | complete
  | discard
  deriving DecidableEq, Repr

/-- One step of the trace semantics.  Each case applies the corresponding
queue operation and updates the ghost bookkeeping; documented misuse
(a completion signal with no running task, a discard of a task from an
empty queue) yields `none`. -/
def tq_step (s : taskqueue × tq_ghost) (e : tq_event) : Option (taskqueue × tq_ghost) :=
  match e with
  | .push t ok =>
    some ((taskqueue_push s.1 t ok).2,
      if ok then { s.2 with pushed := s.2.pushed ++ [t] } else s.2)
  | .push_n t n ok =>
    some ((taskqueue_push_n s.1 t n ok).2,
      if ok then { s.2 with pushed := s.2.pushed ++ List.replicate n t } else s.2)
  | .pop =>
    match taskqueue_pop s.1 with
    | (_, q2, some t) => some (q2, { s.2 with popped := s.2.popped ++ [t] })
    | (_, q2, none) => some (q2, s.2)
  | .complete =>
    match taskqueue_task_complete s.1 with
    | none => none
    | some q2 => some (q2, { s.2 with completed := s.2.completed + 1 })
  | .discard =>
    match s.1.queue with
    | [] => none
    | _ :: rest => some ({ s.1 with queue := rest }, { s.2 with discarded := s.2.discarded + 1 })

/-- Run a trace of atomic transitions from a given state, failing if any
step is documented misuse. -/
def tq_run (s : taskqueue × tq_ghost) : List tq_event → Option (taskqueue × tq_ghost)
  | [] => some s
  | e :: es =>
    match tq_step s e with
    | none => none
    | some s2 => tq_run s2 es

/-- Byte-addressable memory for the freeze model: a total map from addresses
to byte values. -/
def Mem : Type := Nat → Nat

/-- The n bytes stored at address p. -/
def readBytes (m : Mem) (p n : Nat) : List Nat :=
  (List.range n).map (fun i => m (p + i))

/-- Copy n bytes from address src to address dst; the source bytes are read
from the memory as it was before the copy. -/
def memcpy (m : Mem) (dst src n : Nat) : Mem :=
  fun a => if dst ≤ a ∧ a < dst + n then m (src + (a - dst)) else m a

/-- Modelled from the spec: the body of task_freeze is not under src/.
Per the spec and the header (src/src/taskqueue.h lines 52-59) it allocates
a private heap copy of arg_size bytes from arg and repoints the task's
argument to that copy, returning 0; on allocation failure it returns
non-zero and leaves the task unchanged.  The allocation outcome is the
explicit parameter `allocResult` (`none` = allocation failure, `some p` =
a fresh block at address p).  The result is the return code, the task as
left by the call, and the memory as left by the call. -/
def task_freeze (t : task) (m : Mem) (allocResult : Option Nat) : Nat × task × Mem :=
  match allocResult with
  | none => (1, t, m)
  | some p => (0, { t with arg := p }, memcpy m p t.arg t.arg_size)

/-- An observable event of task execution: a call of a function pointer with
an argument pointer, or the release of an argument buffer. -/
inductive task_ev where
  | call (f a : Nat)
  | free (a : Nat)
  deriving DecidableEq, Repr

/-- Modelled from the spec: the body of task_execute is not under src/.
Per the spec and the header comment it invokes the stored callable with the
stored argument and then releases the argument buffer; the observable
behavior is recorded as an event log. -/
def task_execute (t : task) (log : List task_ev) : List task_ev :=
  log ++ [task_ev.call t.func t.arg, task_ev.free t.arg]

/-- Modelled from the spec: the body of task_destroy is not under src/.
Per the spec it releases the argument buffer without executing. -/
def task_destroy (t : task) (log : List task_ev) : List task_ev :=
  log ++ [task_ev.free t.arg]

/-- The caller's local variable holding a task record, made explicit to
model the C calling convention. -/
structure task_frame where
  t : task
  deriving DecidableEq, Repr

/-- Modelled from the spec: the header (src/src/taskqueue.h line 105)
declares taskqueue_push to receive the task by value, so the callee operates
on a copy and the caller's own record is unaffected.  The model makes the
caller's frame explicit: the call returns the push result together with the
caller's frame after the call, which by-value passing leaves untouched. -/
def taskqueue_push_call (q : taskqueue) (fr : task_frame) (alloc_ok : Bool) :
    (Nat × taskqueue) × task_frame :=
  (taskqueue_push q fr.t alloc_ok, fr)

/-- Modelled from the spec: the header (src/src/taskqueue.h line 116)
declares taskqueue_push_n to receive the task by value; see
taskqueue_push_call. -/
def taskqueue_push_n_call (q : taskqueue) (fr : task_frame) (n : Nat) (alloc_ok : Bool) :
    (Nat × taskqueue) × task_frame :=
  (taskqueue_push_n q fr.t n alloc_ok, fr)

/-- The FIFO invariant of the trace semantics: the accepted tasks, in total
enqueue order, are exactly the popped tasks (in removal order) followed by
the tasks still in the FIFO (in queue order). -/
def tq_fifo_inv (s : taskqueue × tq_ghost) : Prop :=
  s.2.pushed = s.2.popped ++ s.1.queue

/-- The conservation invariant of the trace semantics, in additive form:
accepted tasks = running + pending + completed + discarded. -/
def tq_conservation_inv (s : taskqueue × tq_ghost) : Prop :=
  s.2.pushed.length = s.1.num_running + s.1.queue.length + s.2.completed + s.2.discarded

theorem tq_step_fifo_inv : ∀ (s s2 : taskqueue × tq_ghost) (e : tq_event),
    e ≠ tq_event.discard → tq_step s e = some s2 → tq_fifo_inv s → tq_fifo_inv s2 := by
  rintro ⟨⟨qu, nr⟩, ⟨pu, po, co, di⟩⟩ s2 e hne h hinv
  cases e with
  | push t ok =>
    cases ok with
    | false =>
      simp [tq_step, taskqueue_push] at h
      subst h
      exact hinv
    | true =>
      simp [tq_step, taskqueue_push] at h
      subst h
      simp [tq_fifo_inv] at hinv ⊢
      simp [hinv, List.append_assoc]
  | push_n t n ok =>
    cases ok with
    | false =>
      simp [tq_step, taskqueue_push_n] at h
      subst h
      exact hinv
    | true =>
      simp [tq_step, taskqueue_push_n] at h
      subst h
      simp [tq_fifo_inv] at hinv ⊢
      simp [hinv, List.append_assoc]
  | pop =>
    cases qu with
    | nil =>
      simp [tq_step, taskqueue_pop] at h
      subst h
      exact hinv
    | cons t rest =>
      simp [tq_step, taskqueue_pop] at h
      subst h
      simp [tq_fifo_inv] at hinv ⊢
      simp [hinv, List.append_assoc]
  | complete =>
    cases nr with
    | zero => simp [tq_step, taskqueue_task_complete] at h
    | succ k =>
      simp [tq_step, taskqueue_task_complete] at h
      subst h
      simp [tq_fifo_inv] at hinv ⊢
      exact hinv
  | discard => exact absurd rfl hne

theorem tq_run_fifo_inv : ∀ (es : List tq_event) (s s2 : taskqueue × tq_ghost),
    (∀ e ∈ es, e ≠ tq_event.discard) → tq_run s es = some s2 → tq_fifo_inv s →
    tq_fifo_inv s2 := by
  intro es
  induction es with
  | nil =>
    intro s s2 _ h hinv
    simp [tq_run] at h
    subst h
    exact hinv
  | cons e es ih =>
    intro s s2 hne h hinv
    simp only [tq_run] at h
    cases hstep : tq_step s e with
    | none => rw [hstep] at h; exact absurd h (by simp)
    | some s1 =>
      rw [hstep] at h
      exact ih s1 s2 (fun e2 he2 => hne e2 (List.mem_cons_of_mem _ he2)) h
        (tq_step_fifo_inv _ _ _ (hne e (List.mem_cons_self _ _)) hstep hinv)

/-- Claim C1: for every trace of pushes (taskqueue_push or taskqueue_push_n,
across all producers, serialised by the queue lock into a total enqueue
order) and pops (taskqueue_pop, or the successful locked re-check inside
taskqueue_wait_for_work, which is the same transition) starting from an
initialized queue, the popped tasks are exactly an initial segment, in
order, of the tasks accepted in total enqueue order: the queue is FIFO. -/
theorem taskqueue_fifo_order (es : List tq_event) (q : taskqueue) (g : tq_ghost)
    (hnd : ∀ e ∈ es, e ≠ tq_event.discard)
    (h : tq_run (taskqueue_init, tq_ghost_init) es = some (q, g)) :
    g.pushed = g.popped ++ q.queue := by
  have hinv : tq_fifo_inv (taskqueue_init, tq_ghost_init) := by
    simp [tq_fifo_inv, taskqueue_init, tq_ghost_init]
  exact tq_run_fifo_inv es _ _ hnd h hinv

/-- Witness for claim C1: a concrete trace of two pushes and one pop. -/
theorem taskqueue_fifo_order_witness :
    ((∀ e ∈ [tq_event.push (task.mk 0 0 8) true, tq_event.push (task.mk 1 16 8) true,
        tq_event.pop], e ≠ tq_event.discard) ∧
      tq_run (taskqueue_init, tq_ghost_init)
        [tq_event.push (task.mk 0 0 8) true, tq_event.push (task.mk 1 16 8) true,
          tq_event.pop] =
        some (taskqueue.mk [task.mk 1 16 8] 1,
          tq_ghost.mk [task.mk 0 0 8, task.mk 1 16 8] [task.mk 0 0 8] 0 0)) ∧
    (tq_ghost.mk [task.mk 0 0 8, task.mk 1 16 8] [task.mk 0 0 8] 0 0).pushed =
      (tq_ghost.mk [task.mk 0 0 8, task.mk 1 16 8] [task.mk 0 0 8] 0 0).popped ++
        (taskqueue.mk [task.mk 1 16 8] 1).queue :=
  ⟨⟨by decide, by decide⟩,
    taskqueue_fifo_order
      [tq_event.push (task.mk 0 0 8) true, tq_event.push (task.mk 1 16 8) true,
        tq_event.pop]
      (taskqueue.mk [task.mk 1 16 8] 1)
      (tq_ghost.mk [task.mk 0 0 8, task.mk 1 16 8] [task.mk 0 0 8] 0 0)
      (by decide) (by decide)⟩

theorem tq_step_conservation_inv : ∀ (s s2 : taskqueue × tq_ghost) (e : tq_event),
    tq_step s e = some s2 → tq_conservation_inv s → tq_conservation_inv s2 := by
  rintro ⟨⟨qu, nr⟩, ⟨pu, po, co, di⟩⟩ s2 e h hinv
  cases e with
  | push t ok =>
    cases ok with
    | false =>
      simp [tq_step, taskqueue_push] at h
      subst h
      exact hinv
    | true =>
      simp [tq_step, taskqueue_push] at h
      subst h
      simp [tq_conservation_inv] at hinv ⊢
      omega
  | push_n t n ok =>
    cases ok with
    | false =>
      simp [tq_step, taskqueue_push_n] at h
      subst h
      exact hinv
    | true =>
      simp [tq_step, taskqueue_push_n] at h
      subst h
      simp [tq_conservation_inv] at hinv ⊢
      omega
  | pop =>
    cases qu with
    | nil =>
      simp [tq_step, taskqueue_pop] at h
      subst h
      exact hinv
    | cons t rest =>
      simp [tq_step, taskqueue_pop] at h
      subst h
      simp [tq_conservation_inv] at hinv ⊢
      omega
  | complete =>
    cases nr with
    | zero => simp [tq_step, taskqueue_task_complete] at h
    | succ k =>
      simp [tq_step, taskqueue_task_complete] at h
      subst h
      simp [tq_conservation_inv] at hinv ⊢
      omega
  | discard =>
    cases qu with
    | nil => simp [tq_step] at h
    | cons t rest =>
      simp [tq_step] at h
      subst h
      simp [tq_conservation_inv] at hinv ⊢
      omega

theorem tq_run_conservation_inv : ∀ (es : List tq_event) (s s2 : taskqueue × tq_ghost),
    tq_run s es = some s2 → tq_conservation_inv s → tq_conservation_inv s2 := by
  intro es
  induction es with
  | nil =>
    intro s s2 h hinv
    simp [tq_run] at h
    subst h
    exact hinv
  | cons e es ih =>
    intro s s2 h hinv
    simp only [tq_run] at h
    cases hstep : tq_step s e with
    | none => rw [hstep] at h; exact absurd h (by simp)
    | some s1 =>
      rw [hstep] at h
      exact ih s1 s2 h (tq_step_conservation_inv _ _ _ hstep hinv)

/-- Claim C2: in every state reachable by a trace of locked transitions from
an initialized queue (so at any moment when no thread holds the lock
mid-transition), num_running plus the queue length equals the total number
of accepted pushes minus the total completion signals minus the total tasks
destroyed without running; every accepted-but-unfinished task is counted in
exactly one of the two (the completed and discarded totals never exceed the
accepted total). -/
theorem taskqueue_conservation (es : List tq_event) (q : taskqueue) (g : tq_ghost)
    (h : tq_run (taskqueue_init, tq_ghost_init) es = some (q, g)) :
    q.num_running + q.queue.length = g.pushed.length - g.completed - g.discarded ∧
    g.completed + g.discarded ≤ g.pushed.length := by
  have hinv : tq_conservation_inv (taskqueue_init, tq_ghost_init) := by
    simp [tq_conservation_inv, taskqueue_init, tq_ghost_init]
  have h2 := tq_run_conservation_inv es _ _ h hinv
  simp [tq_conservation_inv] at h2
  omega

/-- Witness for claim C2: a concrete trace with a push, a batch push, a pop,
a completion and a teardown discard. -/
theorem taskqueue_conservation_witness :
    tq_run (taskqueue_init, tq_ghost_init)
      [tq_event.push (task.mk 0 0 8) true, tq_event.push_n (task.mk 1 16 8) 2 true,
        tq_event.pop, tq_event.complete, tq_event.discard] =
      some (taskqueue.mk [task.mk 1 16 8] 0,
        tq_ghost.mk [task.mk 0 0 8, task.mk 1 16 8, task.mk 1 16 8] [task.mk 0 0 8] 1 1) ∧
    ((taskqueue.mk [task.mk 1 16 8] 0).num_running +
        (taskqueue.mk [task.mk 1 16 8] 0).queue.length =
      (tq_ghost.mk [task.mk 0 0 8, task.mk 1 16 8, task.mk 1 16 8]
          [task.mk 0 0 8] 1 1).pushed.length -
        (tq_ghost.mk [task.mk 0 0 8, task.mk 1 16 8, task.mk 1 16 8]
            [task.mk 0 0 8] 1 1).completed -
        (tq_ghost.mk [task.mk 0 0 8, task.mk 1 16 8, task.mk 1 16 8]
            [task.mk 0 0 8] 1 1).discarded ∧
      (tq_ghost.mk [task.mk 0 0 8, task.mk 1 16 8, task.mk 1 16 8]
            [task.mk 0 0 8] 1 1).completed +
          (tq_ghost.mk [task.mk 0 0 8, task.mk 1 16 8, task.mk 1 16 8]
              [task.mk 0 0 8] 1 1).discarded ≤
        (tq_ghost.mk [task.mk 0 0 8, task.mk 1 16 8, task.mk 1 16 8]
            [task.mk 0 0 8] 1 1).pushed.length) :=
  ⟨by decide,
    taskqueue_conservation
      [tq_event.push (task.mk 0 0 8) true, tq_event.push_n (task.mk 1 16 8) 2 true,
        tq_event.pop, tq_event.complete, tq_event.discard]
      (taskqueue.mk [task.mk 1 16 8] 0)
      (tq_ghost.mk [task.mk 0 0 8, task.mk 1 16 8, task.mk 1 16 8] [task.mk 0 0 8] 1 1)
      (by decide)⟩

/-- Claim C3: taskqueue_wait_for_complete returns only at a locked
observation point where num_running == 0 and queue_length == 0 hold
simultaneously; every earlier observation of the wait/re-check-after-wake
loop (states in which a task is still queued or still running) found the
queue non-quiescent and did not make the call return. -/
theorem taskqueue_wait_for_complete_quiescent (ws : List taskqueue) (q' : taskqueue)
    (h : taskqueue_wait_for_complete ws = some q') :
    q'.num_running = 0 ∧ q'.queue.length = 0 ∧
      ∃ pre rest, ws = pre ++ q' :: rest ∧ ∀ p ∈ pre, taskqueue_quiescent p = false := by
  induction ws with
  | nil => simp [taskqueue_wait_for_complete] at h
  | cons q rest ih =>
    cases hq : taskqueue_quiescent q with
    | true =>
      simp only [taskqueue_wait_for_complete, hq, if_pos, Option.some.injEq] at h
      subst h
      simp [taskqueue_quiescent, taskqueue_count] at hq
      exact ⟨hq.1, by simp [hq.2], [], rest, rfl, by simp⟩
    | false =>
      simp only [taskqueue_wait_for_complete, hq, Bool.false_eq_true, if_false] at h
      obtain ⟨h1, h2, pre, rest2, hws, hpre⟩ := ih h
      refine ⟨h1, h2, q :: pre, rest2, by rw [hws]; rfl, ?_⟩
      intro p hp
      rcases List.mem_cons.mp hp with hp1 | hp2
      · rw [hp1]; exact hq
      · exact hpre p hp2

/-- Witness for claim C3: a wait that observes one pending plus one running
state, then a drained-but-running state, and returns only at the fully
quiescent third observation. -/
theorem taskqueue_wait_for_complete_quiescent_witness :
    taskqueue_wait_for_complete
      [taskqueue.mk [task.mk 0 0 8] 1, taskqueue.mk [] 1, taskqueue.mk [] 0] =
      some (taskqueue.mk [] 0) ∧
    ((taskqueue.mk ([] : List task) 0).num_running = 0 ∧
      (taskqueue.mk ([] : List task) 0).queue.length = 0 ∧
      ∃ pre rest,
        [taskqueue.mk [task.mk 0 0 8] 1, taskqueue.mk [] 1, taskqueue.mk [] 0] =
          pre ++ taskqueue.mk [] 0 :: rest ∧
        ∀ p ∈ pre, taskqueue_quiescent p = false) :=
  ⟨by decide,
    taskqueue_wait_for_complete_quiescent
      [taskqueue.mk [task.mk 0 0 8] 1, taskqueue.mk [] 1, taskqueue.mk [] 0]
      (taskqueue.mk [] 0) (by decide)⟩

/-- Claim C4: whenever taskqueue_wait_for_work returns a task, it does so at
an observation q whose FIFO was non-empty at that locked re-check (every
earlier wakeup, spurious or unrelated, observed an empty FIFO and went back
to waiting), and the returned state q' is produced from q by the single
atomic taskqueue_pop transition: the task leaves the FIFO front and
num_running is incremented in the same locked transition, with no
intermediate state in between. -/
theorem taskqueue_wait_for_work_atomic_pop (ws : List taskqueue) (t : task) (q' : taskqueue)
    (h : taskqueue_wait_for_work ws = some (t, q')) :
    ∃ pre q rest, ws = pre ++ q :: rest ∧
      (∀ p ∈ pre, p.queue = []) ∧
      q.queue = t :: q'.queue ∧
      q'.num_running = q.num_running + 1 ∧
      taskqueue_pop q = (0, q', some t) := by
  induction ws with
  | nil => simp [taskqueue_wait_for_work] at h
  | cons q rest ih =>
    cases hq : q.queue with
    | nil =>
      have htry : taskqueue_wait_for_work_try q = none := by
        simp [taskqueue_wait_for_work_try, taskqueue_pop, hq]
      simp only [taskqueue_wait_for_work, htry] at h
      obtain ⟨pre, q1, rest1, hws, hpre, h3, h4, h5⟩ := ih h
      refine ⟨q :: pre, q1, rest1, by simp [hws], ?_, h3, h4, h5⟩
      intro p hp
      rcases List.mem_cons.mp hp with hp1 | hp2
      · rw [hp1]; exact hq
      · exact hpre p hp2
    | cons t0 r0 =>
      have htry : taskqueue_wait_for_work_try q =
          some (t0, taskqueue.mk r0 (q.num_running + 1)) := by
        simp [taskqueue_wait_for_work_try, taskqueue_pop, hq]
      simp only [taskqueue_wait_for_work, htry, Option.some.injEq] at h
      obtain ⟨rfl, rfl⟩ := Prod.mk.injEq .. ▸ h
      exact ⟨[], q, rest, rfl, by simp, by simp [hq], rfl,
        by simp [taskqueue_pop, hq]⟩

/-- Witness for claim C4: a first spurious wakeup with an empty queue, then
a wakeup observing one pending task, which is popped with the running count
incremented in the same transition. -/
theorem taskqueue_wait_for_work_atomic_pop_witness :
    taskqueue_wait_for_work [taskqueue.mk [] 5, taskqueue.mk [task.mk 2 32 4] 0] =
      some (task.mk 2 32 4, taskqueue.mk [] 1) ∧
    ∃ pre q rest,
      [taskqueue.mk [] 5, taskqueue.mk [task.mk 2 32 4] 0] = pre ++ q :: rest ∧
      (∀ p ∈ pre, p.queue = []) ∧
      q.queue = task.mk 2 32 4 :: (taskqueue.mk ([] : List task) 1).queue ∧
      (taskqueue.mk ([] : List task) 1).num_running = q.num_running + 1 ∧
      taskqueue_pop q = (0, taskqueue.mk [] 1, some (task.mk 2 32 4)) :=
  ⟨by decide,
    taskqueue_wait_for_work_atomic_pop
      [taskqueue.mk [] 5, taskqueue.mk [task.mk 2 32 4] 0]
      (task.mk 2 32 4) (taskqueue.mk [] 1) (by decide)⟩

/-- Claim C5: taskqueue_push_n appends n copies of the task (structurally
equal, hence sharing the same function pointer, argument pointer and
argument size) in n consecutive FIFO slots as one locked batch, succeeding
with return code 0 and leaving num_running untouched; in particular a batch
push of 5 on an empty queue followed by 5 pops yields 5 structurally-equal
tasks and leaves the queue length at 0. -/
theorem taskqueue_push_n_batch (q : taskqueue) (t : task) (n : Nat) :
    (taskqueue_push_n q t n true).1 = 0 ∧
    (taskqueue_push_n q t n true).2.queue = q.queue ++ List.replicate n t ∧
    (taskqueue_push_n q t n true).2.num_running = q.num_running ∧
    tq_run (taskqueue_init, tq_ghost_init)
      [tq_event.push_n t 5 true, tq_event.pop, tq_event.pop, tq_event.pop,
        tq_event.pop, tq_event.pop] =
      some (taskqueue.mk [] 5,
        tq_ghost.mk (List.replicate 5 t) (List.replicate 5 t) 0 0) :=
  ⟨rfl, rfl, rfl, rfl⟩

/-- Claim C6: taskqueue_pop is a total non-blocking function with exactly
two outcomes: on an empty FIFO it returns the distinct non-zero "empty"
result with the queue state unchanged and no task; on a non-empty FIFO it
returns 0 (distinguishable from the empty result) and removes the front
task into the output slot in the single locked transition. -/
theorem taskqueue_pop_two_outcomes (q : taskqueue) :
    (q.queue = [] →
      taskqueue_pop q = (1, q, none) ∧ (taskqueue_pop q).1 ≠ 0) ∧
    (∀ t rest, q.queue = t :: rest →
      taskqueue_pop q = (0, taskqueue.mk rest (q.num_running + 1), some t)) := by
  obtain ⟨qu, nr⟩ := q
  constructor
  · intro hq
    have hq2 : qu = [] := hq
    subst hq2
    exact ⟨rfl, by simp [taskqueue_pop]⟩
  · intro t rest hq
    have hq2 : qu = t :: rest := hq
    subst hq2
    rfl

/-- Witness for claim C6: the empty outcome on a drained queue and the
success outcome on a queue holding one task. -/
theorem taskqueue_pop_two_outcomes_witness :
    (taskqueue_pop (taskqueue.mk [] 2) = (1, taskqueue.mk [] 2, none) ∧
      (taskqueue_pop (taskqueue.mk [] 2)).1 ≠ 0) ∧
    taskqueue_pop (taskqueue.mk [task.mk 7 8 9] 2) =
      (0, taskqueue.mk [] 3, some (task.mk 7 8 9)) :=
  ⟨(taskqueue_pop_two_outcomes (taskqueue.mk [] 2)).1 rfl,
    (taskqueue_pop_two_outcomes (taskqueue.mk [task.mk 7 8 9] 2)).2
      (task.mk 7 8 9) [] rfl⟩

/-- Claim C7: task_freeze either fails, returning a non-zero result and
leaving the task (every field) and the memory exactly as they were, or
succeeds, returning 0, repointing the task's argument to the freshly
allocated block and copying exactly arg_size bytes there, so that reading
arg_size bytes at the new argument yields the same bytes the original
argument held at freeze time; func and arg_size are unchanged. -/
theorem task_freeze_spec (t : task) (m : Mem) :
    task_freeze t m none = (1, t, m) ∧
    ∀ p, (task_freeze t m (some p)).1 = 0 ∧
      (task_freeze t m (some p)).2.1.func = t.func ∧
      (task_freeze t m (some p)).2.1.arg_size = t.arg_size ∧
      (task_freeze t m (some p)).2.1.arg = p ∧
      readBytes (task_freeze t m (some p)).2.2 p t.arg_size =
        readBytes m t.arg t.arg_size := by
  refine ⟨rfl, fun p => ⟨rfl, rfl, rfl, rfl, ?_⟩⟩
  simp only [task_freeze, readBytes, memcpy]
  apply List.map_congr_left
  intro i hi
  rw [List.mem_range] at hi
  have hcond : p ≤ p + i ∧ p + i < p + t.arg_size := by omega
  rw [if_pos hcond]
  congr 1
  omega

/-- Claim C8: a failed taskqueue_push (the underlying container cannot
grow) surfaces a non-zero result distinguishable from success, and the
queue state — FIFO contents and num_running — is exactly unchanged, so the
task was not stored and the caller keeps the argument buffer. -/
theorem taskqueue_push_failure (q : taskqueue) (t : task) :
    (taskqueue_push q t false).1 ≠ 0 ∧
    (taskqueue_push q t false).2 = q := by
  constructor
  · simp [taskqueue_push]
  · rfl

/-- Claim C9: task_execute invokes the task's stored callable with the
stored argument pointer and then releases the argument buffer; provided the
buffer was not already released (the task is executed at most once), the
buffer ends up freed exactly once, and task_destroy likewise frees it
exactly once without invoking the callable — so exactly one of the two
consumes each task's buffer. -/
theorem task_execute_calls_then_frees (t : task) (log : List task_ev)
    (h : task_ev.free t.arg ∉ log) :
    task_execute t log = log ++ [task_ev.call t.func t.arg, task_ev.free t.arg] ∧
    (task_execute t log).count (task_ev.free t.arg) = 1 ∧
    (task_destroy t log).count (task_ev.free t.arg) = 1 ∧
    (task_destroy t log).count (task_ev.call t.func t.arg) =
      log.count (task_ev.call t.func t.arg) := by
  have hz : log.count (task_ev.free t.arg) = 0 := List.count_eq_zero.mpr h
  refine ⟨rfl, ?_, ?_, ?_⟩
  · simp [task_execute, List.count_append, hz, List.count_cons]
  · simp [task_destroy, List.count_append, hz]
  · simp [task_destroy, List.count_append, List.count_cons]

/-- Witness for claim C9: executing and destroying a task whose argument
buffer was never freed before. -/
theorem task_execute_calls_then_frees_witness :
    (task_ev.free (task.mk 1 2 3).arg ∉ ([] : List task_ev)) ∧
    (task_execute (task.mk 1 2 3) [] =
        [] ++ [task_ev.call (task.mk 1 2 3).func (task.mk 1 2 3).arg,
          task_ev.free (task.mk 1 2 3).arg] ∧
      (task_execute (task.mk 1 2 3) []).count (task_ev.free (task.mk 1 2 3).arg) = 1 ∧
      (task_destroy (task.mk 1 2 3) []).count (task_ev.free (task.mk 1 2 3).arg) = 1 ∧
      (task_destroy (task.mk 1 2 3) []).count
          (task_ev.call (task.mk 1 2 3).func (task.mk 1 2 3).arg) =
        List.count (task_ev.call (task.mk 1 2 3).func (task.mk 1 2 3).arg) []) :=
  ⟨by decide, task_execute_calls_then_frees (task.mk 1 2 3) [] (by decide)⟩

/-- Claim C10: taskqueue_push and taskqueue_push_n receive the task record
by value, so after any call — successful or failed — the caller's own
record still holds the same func, arg and arg_size; only the queue is
affected. -/
theorem taskqueue_push_by_value (q : taskqueue) (fr : task_frame) (ok : Bool) (n : Nat) :
    ((taskqueue_push_call q fr ok).2.t.func = fr.t.func ∧
      (taskqueue_push_call q fr ok).2.t.arg = fr.t.arg ∧
      (taskqueue_push_call q fr ok).2.t.arg_size = fr.t.arg_size) ∧
    ((taskqueue_push_n_call q fr n ok).2.t.func = fr.t.func ∧
      (taskqueue_push_n_call q fr n ok).2.t.arg = fr.t.arg ∧
      (taskqueue_push_n_call q fr n ok).2.t.arg_size = fr.t.arg_size) :=
  ⟨⟨rfl, rfl, rfl⟩, ⟨rfl, rfl, rfl⟩⟩
